import Mathlib

/-!
Verification development for the blank-selection engine of the python-mp4
repository (files `src/ai_exercise_generator.py`, `src/spacy_cloze.py`,
`src/main_window.py`).  Python string primitives (`str.split()`,
`str.strip()`, `str.lower()`) and the regular-expression rewrites of
`_fix_json_format` are embedded as executable functions on `List Char`;
the spaCy pipeline is embedded with the tokenised document (`doc`) as an
explicit input, since the spaCy model is an external collaborator.
-/

set_option maxHeartbeats 1000000

/-- Python whitespace for `str.split()` / `str.strip()`:
space, tab, newline, carriage return, vertical tab, form feed. -/
def isPySpace (c : Char) : Bool :=
  c == ' ' || c == '\t' || c == '\n' || c == '\r' || c == '\x0b' || c == '\x0c'

/-- Strip characters satisfying `p` from the front of a char list. -/
def stripLeading (p : Char → Bool) (l : List Char) : List Char :=
  l.dropWhile p

/-- Strip characters satisfying `p` from the back of a char list. -/
def stripTrailing (p : Char → Bool) (l : List Char) : List Char :=
  (l.reverse.dropWhile p).reverse

/-- Strip characters satisfying `p` from both ends (Python `str.strip(chars)`). -/
def stripBoth (p : Char → Bool) (l : List Char) : List Char :=
  stripTrailing p (stripLeading p l)

/-- Python `str.strip()` on char lists. -/
def pyStripL (l : List Char) : List Char :=
  stripBoth isPySpace l

/-- Python `str.strip()` (no arguments: strip whitespace). -/
def pyStrip (s : String) : String :=
  String.mk (pyStripL s.data)

/-- Python `str.strip(chars)`: remove leading and trailing characters
that are members of `chars`. -/
def pyStripChars (chars : List Char) (s : String) : String :=
  String.mk (stripBoth (fun c => decide (c ∈ chars)) s.data)

/-- Python `str.lower()` restricted to the alphabets this program handles:
ASCII letters plus the accented letters of Spanish (the target language of
the local pipeline), which cover the language keys and answers compared
case-insensitively here. -/
def pyLowerChar (c : Char) : Char :=
  if c = 'Á' then 'á'
  else if c = 'É' then 'é'
  else if c = 'Í' then 'í'
  else if c = 'Ó' then 'ó'
  else if c = 'Ú' then 'ú'
  else if c = 'Ü' then 'ü'
  else if c = 'Ñ' then 'ñ'
  else c.toLower

/-- Python `str.lower()`. -/
def pyLower (s : String) : String :=
  String.mk (s.data.map pyLowerChar)

/-- Worker for `splitWs`: accumulate the current word (reversed) while
scanning; whitespace runs end words, empty pieces are discarded. -/
def splitWsGo : List Char → List Char → List String
  | [], [] => []
  | [], acc => [String.mk acc.reverse]
  | c :: rest, acc =>
      if isPySpace c then
        if acc = [] then splitWsGo rest []
        else String.mk acc.reverse :: splitWsGo rest []
      else splitWsGo rest (c :: acc)

/-- Python `str.split()` (no arguments): split on whitespace runs,
discarding empty pieces. -/
def splitWs (s : String) : List String :=
  splitWsGo s.data []

/-- The punctuation set stripped by `ai_exercise_generator.py`
(`.strip of ".,!?;:\"()[]\x7b\x7d"` in `validate_blanks`,
`parse_ai_response` and `fallback_parsing`). -/
def aiStripSet : List Char := ".,!?;:\"()[]\x7b\x7d".data

/-- The word cleaning applied by the AI-path validators:
`words[position].strip of ".,!?;:\"()[]\x7b\x7d"`. -/
def strip_punct_ai (s : String) : String :=
  pyStripChars aiStripSet s

/-- The punctuation set of `spacy_cloze._strip_punct`. -/
def spacyStripSet : List Char :=
  ".,!?;:\"()[]\x7b\x7d¡¿…“”’\x27\x60、·—-".data

/-- `spacy_cloze._strip_punct`: strip the extended punctuation set from
both ends of a word. -/
def strip_punct (s : String) : String :=
  pyStripChars spacyStripSet s

/-- Word characters of the regex class used by `_ensure_min_blanks` (the
class of non-word characters together with the underscore matches exactly
the non-alphanumeric characters): ASCII alphanumerics plus the accented
letters of Spanish, the alphabets this program handles. -/
def pyWordChar (c : Char) : Bool :=
  c.isAlphanum || decide (c ∈ "áéíóúüñÁÉÍÓÚÜÑ".data)

/-- The edge cleaning of `main_window._ensure_min_blanks`:
`re.sub` removing a leading and a trailing run of non-word characters. -/
def cleanWord (s : String) : String :=
  String.mk (stripBoth (fun c => !pyWordChar c) s.data)

/-- `spacy_cloze._candidate_mask` (lines 107-127): decide whether a token
part-of-speech is eligible.  A non-empty `allowed_pos` wins; otherwise the
lower-cased focus areas contribute rules, and membership in the default set
is OR-ed in unconditionally at the end (`any(rules) or pos in {...}`). -/
def candidate_mask (pos : String) (allowed_pos : Option (List String))
    (focus_areas : Option (List String)) : Bool :=
  if allowed_pos.getD [] ≠ [] then decide (pos ∈ allowed_pos.getD [])
  else
    let fa := (focus_areas.getD []).map pyLower
    if fa = [] then decide (pos ∈ ["NOUN", "PROPN", "VERB", "ADJ", "ADV"])
    else
      let rules : List Bool :=
        (if "nouns" ∈ fa then [decide (pos ∈ ["NOUN", "PROPN"])] else []) ++
        (if "verbs" ∈ fa then [decide (pos ∈ ["VERB", "AUX"])] else []) ++
        (if "adjectives" ∈ fa then [decide (pos = "ADJ")] else []) ++
        (if "adverbs" ∈ fa then [decide (pos = "ADV")] else [])
      rules.any id || decide (pos ∈ ["NOUN", "PROPN", "VERB", "ADJ", "ADV"])

/-- Modelled from the spec (section 4.2): the union of the POS sets mapped
from the configured focus areas by the fixed table
nouns to NOUN and PROPN, verbs to VERB and AUX, adjectives to ADJ,
adverbs to ADV.  Used only to compare the spec's wording with the code. -/
def spec_focus_union (fa : List String) : List String :=
  (if "nouns" ∈ fa then ["NOUN", "PROPN"] else []) ++
  (if "verbs" ∈ fa then ["VERB", "AUX"] else []) ++
  (if "adjectives" ∈ fa then ["ADJ"] else []) ++
  (if "adverbs" ∈ fa then ["ADV"] else [])

/-- Modelled from the spec (section 4.2): eligibility is membership in the
union of the mapped focus-area sets, falling back to the default set
NOUN, PROPN, VERB, ADJ, ADV only when no focus area matches the table. -/
def spec_eligible (pos : String) (fa : List String) : Bool :=
  if spec_focus_union fa = [] then
    decide (pos ∈ ["NOUN", "PROPN", "VERB", "ADJ", "ADV"])
  else decide (pos ∈ spec_focus_union fa)

/-- C4 counterexample: with focus areas `["adjectives"]` and no allow-list,
the spec's union is just ADJ, so a NOUN token should be ineligible; the code
nevertheless accepts it because the default set is OR-ed in unconditionally. -/
theorem c4_counterexample :
    candidate_mask "NOUN" none (some ["adjectives"]) = true ∧
    spec_eligible "NOUN" ["adjectives"] = false := by
  exact ⟨by decide, by decide⟩

/-- C4 (amended): with no allow-list, a POS is eligible iff it lies in the
union of the mapped focus-area sets OR in the default set
NOUN, PROPN, VERB, ADJ, ADV — the default set is always eligible and matching
focus areas can only add to it (AUX via "verbs"); an empty or unrecognized
focus-area list yields exactly the default set. -/
theorem c4_focus_pos_amended (pos : String) (fa : List String) :
    candidate_mask pos none (some fa) =
      (decide (pos ∈ spec_focus_union (fa.map pyLower)) ||
       decide (pos ∈ ["NOUN", "PROPN", "VERB", "ADJ", "ADV"])) := by
  by_cases h0 : (fa.map pyLower) = []
  · simp [candidate_mask, spec_focus_union, h0]
  · by_cases h1 : "nouns" ∈ fa.map pyLower <;>
    by_cases h2 : "verbs" ∈ fa.map pyLower <;>
    by_cases h3 : "adjectives" ∈ fa.map pyLower <;>
    by_cases h4 : "adverbs" ∈ fa.map pyLower <;>
    simp only [candidate_mask, spec_focus_union, h0, h1, h2, h3, h4, Option.getD_none,
      Option.getD_some, ne_eq, not_true_eq_false, if_false, if_true, ite_true, ite_false,
      List.append_nil, List.nil_append, List.append_assoc, List.any_cons, List.any_nil,
      id_eq, Bool.or_false, Bool.false_or, List.mem_append, List.not_mem_nil] <;>
    (rw [Bool.eq_iff_iff]
     simp only [Bool.or_eq_true, List.any_append, List.any_cons, List.any_nil, id_eq,
       Bool.false_or, Bool.or_false, decide_eq_true_iff, List.mem_cons, List.mem_singleton,
       List.not_mem_nil, or_false]
     try tauto)

/-- Stable insertion: place `x` before the first `y` with `le x y`.
Together with `pySortBy` this models Python's stable `sorted`. -/
def insertOrd (le : α → α → Bool) (x : α) : List α → List α
  | [] => [x]
  | y :: ys => if le x y then x :: y :: ys else y :: insertOrd le x ys

/-- Python's stable `sorted(l, key=...)`: insertion sort with a total
boolean preorder `le`; ties keep their original relative order. -/
def pySortBy (le : α → α → Bool) : List α → List α
  | [] => []
  | x :: xs => insertOrd le x (pySortBy le xs)

theorem insertOrd_perm (le : α → α → Bool) (x : α) (l : List α) :
    (insertOrd le x l).Perm (x :: l) := by
  induction l with
  | nil => simp [insertOrd]
  | cons y ys ih =>
    simp only [insertOrd]
    split
    · exact List.Perm.refl _
    · exact (List.Perm.cons y ih).trans (List.Perm.swap x y ys)

theorem pySortBy_perm (le : α → α → Bool) (l : List α) :
    (pySortBy le l).Perm l := by
  induction l with
  | nil => simp [pySortBy]
  | cons x xs ih =>
    exact (insertOrd_perm le x (pySortBy le xs)).trans (List.Perm.cons x ih)

theorem mem_pySortBy {le : α → α → Bool} {x : α} {l : List α} :
    x ∈ pySortBy le l ↔ x ∈ l :=
  (pySortBy_perm le l).mem_iff

/-- A spaCy token, as consumed by `spacy_cloze.py`: raw text, lemma, coarse
POS tag, alphabetic flag, stopword flag and entity IOB tag.  The tokenised
document is external input (the spaCy model's output). -/
structure Token where
  text : String
  lemma_ : String
  pos : String
  is_alpha : Bool
  is_stop : Bool
  ent_iob : String
deriving DecidableEq

/-- A spaCy language model, abstracted as text to token-sequence. -/
def Nlp := String → List Token

/-- A BlankRecord as emitted by every generator path. -/
structure Blank where
  position : Nat
  answer : String
  hint : String
  difficulty : String
deriving DecidableEq

/-- One element of the `blanks` array of a parsed AI response; every field
is optional because the response dictionaries may lack keys
(`blank.get(...)` semantics, with the defaults applied at use sites). -/
structure RawBlank where
  position : Option Int := none
  word : Option String := none
  hint : Option String := none
  difficulty : Option String := none
deriving DecidableEq

/-- One element of the `exercises` array of a parsed batch AI response. -/
structure RawExercise where
  sentence_index : Option Int := none
  blanks : List RawBlank := []
deriving DecidableEq

/-- A subtitle segment (external input from the subtitle parser). -/
structure Subtitle where
  index : Nat
  start_time : Nat
  end_time : Nat
  text : String
deriving DecidableEq

/-- An ExerciseRecord as produced by the generator paths. -/
structure Exercise where
  original_text : String
  blanks : List Blank
  current : Nat
  total : Nat
  subtitle_index : Nat
  start_time : Nat
  end_time : Nat
deriving DecidableEq

/-- The outcome delivered through the `generation_finished` signal:
success flag, message, exercise list. -/
structure GenResult where
  success : Bool
  message : String
  exercises : List Exercise
deriving DecidableEq

/-- The AI service configuration consulted by `generate_exercises`;
an empty string models a missing/falsy key. -/
structure AiConfig where
  api_key : String := ""
  api_url : String := ""
deriving DecidableEq

/-- The per-blank validation gate shared, verbatim in the source, by
`validate_blanks` and the inline loop of `parse_ai_response`: the claimed
position (default -1) must be a valid word index and the claimed word
(default empty, whitespace-stripped) must case-insensitively equal the
punctuation-stripped word at that position; the emitted answer is that
stripped word, with the hint and difficulty defaults of the source. -/
def validate_blank_one (words : List String) (b : RawBlank) : Option Blank :=
  if 0 ≤ b.position.getD (-1) ∧ b.position.getD (-1) < (words.length : Int) then
    if pyLower (pyStrip (b.word.getD "")) =
        pyLower (strip_punct_ai (words.getD (b.position.getD (-1)).toNat "")) then
      some ⟨(b.position.getD (-1)).toNat,
            strip_punct_ai (words.getD (b.position.getD (-1)).toNat ""),
            b.hint.getD
              (toString (strip_punct_ai (words.getD (b.position.getD (-1)).toNat "")).length
                ++ " letters"),
            b.difficulty.getD "medium"⟩
    else none
  else none

/-- `AIExerciseGenerator.validate_blanks` (lines 367-387). -/
def validate_blanks (blanks : List RawBlank) (original_text : String) : List Blank :=
  blanks.filterMap (validate_blank_one (splitWs original_text))

/-- The inline validation loop of `AIExerciseGenerator.parse_ai_response`
(lines 490-508), a verbatim copy of the `validate_blanks` body in the
source. -/
def parse_ai_response_blanks (blanks : List RawBlank) (original_text : String) : List Blank :=
  blanks.filterMap (validate_blank_one (splitWs original_text))

/-- `AIExerciseGenerator.fallback_parsing` (lines 521-544): random blanking
used when JSON parsing of a single-sentence response fails.  `random.sample`
is abstracted as the function argument `sample n k` (a k-element sample of
`range n`); the chosen positions are sorted ascending and blanked. -/
def fallback_parsing (sample : Nat → Nat → List Nat) (original_text : String) : List Blank :=
  let words := splitWs original_text
  let num_blanks := min 2 (words.length / 3 + 1)
  let positions := sample words.length (min num_blanks words.length)
  (pySortBy (fun a b => decide (a ≤ b)) positions).map fun pos =>
    let word := strip_punct_ai (words.getD pos "")
    ⟨pos, word, toString word.length ++ " letters", "medium"⟩

/-- Stage 1 of `_fix_json_format`: the substitution removing, after each
quote character, a whitespace run that contains a line break
(Python `re.sub` of quote, whitespace star, newline, whitespace star,
replaced by the quote).  State: `none` while scanning, `some buf` when a
quote has been emitted and `buf` holds the (reversed) whitespace seen since. -/
def fix1Go : List Char → Option (List Char) → List Char
  | [], none => []
  | [], some buf => if '\n' ∈ buf then [] else buf.reverse
  | c :: rest, none =>
      if c = '"' then '"' :: fix1Go rest (some [])
      else c :: fix1Go rest none
  | c :: rest, some buf =>
      if isPySpace c then fix1Go rest (some (c :: buf))
      else
        (if '\n' ∈ buf then [] else buf.reverse) ++
          (if c = '"' then '"' :: fix1Go rest (some [])
           else c :: fix1Go rest none)

/-- Stage 2 of `_fix_json_format`: the substitution deleting a run that
starts at a line break, continues with whitespace and ends right before a
quote (Python `re.sub` of newline, whitespace star, quote, replaced by the
quote).  State: `some buf` when inside such a candidate run. -/
def fix2Go : List Char → Option (List Char) → List Char
  | [], none => []
  | [], some buf => buf.reverse
  | c :: rest, none =>
      if c = '\n' then fix2Go rest (some ['\n'])
      else c :: fix2Go rest none
  | c :: rest, some buf =>
      if isPySpace c then fix2Go rest (some (c :: buf))
      else if c = '"' then '"' :: fix2Go rest none
      else buf.reverse ++ c :: fix2Go rest none

/-- The control characters removed by `_fix_json_format`
(everything below 0x20 except tab, newline, carriage return, plus 0x7F). -/
def isCtrlRemoved (c : Char) : Bool :=
  c.toNat ≤ 0x08 || c.toNat = 0x0B || c.toNat = 0x0C ||
  (0x0E ≤ c.toNat && c.toNat ≤ 0x1F) || c.toNat = 0x7F

/-- Stages 4/5 of `_fix_json_format`: delete a comma followed by optional
whitespace right before the closing character `close` (Python `re.sub` of
comma, whitespace star, close, replaced by close).  State: `some buf` when
a comma (plus whitespace) is pending. -/
def fixCommaGo (close : Char) : List Char → Option (List Char) → List Char
  | [], none => []
  | [], some buf => buf.reverse
  | c :: rest, none =>
      if c = ',' then fixCommaGo close rest (some [','])
      else c :: fixCommaGo close rest none
  | c :: rest, some buf =>
      if isPySpace c then fixCommaGo close rest (some (c :: buf))
      else if c = close then close :: fixCommaGo close rest none
      else if c = ',' then buf.reverse ++ fixCommaGo close rest (some [','])
      else buf.reverse ++ c :: fixCommaGo close rest none

/-- Index of the last occurrence of `c` in `l` (Python `str.rfind`),
`none` when absent. -/
def rfindPos (c : Char) (l : List Char) : Option Nat :=
  ((l.enum.filter fun p => p.2 == c).map Prod.fst).getLast?

/-- The completeness fix of `_fix_json_format` (lines 352-360): when the
stripped text does not end in a closing brace, truncate back to the last
bracket found before the last brace and close the object. -/
def fixComplete (l : List Char) : List Char :=
  if (pyStripL l).getLast? = some '\x7d' then l
  else
    match rfindPos '\x7d' l with
    | none => l
    | some lb =>
      if 0 < lb then
        match rfindPos ']' (l.take (lb + 1)) with
        | none => l
        | some rb => if 0 < rb then l.take (rb + 1) ++ ['\x7d'] else l
      else l

/-- BOM removal at the start of `_fix_json_format`. -/
def stripBom (l : List Char) : List Char :=
  match l with
  | '﻿' :: rest => rest
  | _ => l

/-- `AIExerciseGenerator._fix_json_format` (lines 331-365): BOM removal,
the two quote-adjacent line-break substitutions, control-character
removal, trailing-comma removal before closing braces and brackets, the
completeness fix, and a final strip. -/
def fix_json_format (s : String) : String :=
  String.mk (pyStripL (fixComplete (fixCommaGo ']'
    (fixCommaGo '\x7d'
      ((fix2Go (fix1Go (stripBom s.data) none) none).filter fun c => !isCtrlRemoved c)
      none) none)))

/-- JSON whitespace accepted between tokens by `json.loads`. -/
def jsonWsDrop (l : List Char) : List Char :=
  l.dropWhile fun c => c == ' ' || c == '\t' || c == '\n' || c == '\r'

/-- Hexadecimal digit (for JSON unicode escapes). -/
def jpHex (c : Char) : Bool :=
  c.isDigit || (decide ('a' ≤ c) && decide (c ≤ 'f')) || (decide ('A' ≤ c) && decide (c ≤ 'F'))

/-- Parse the remainder of a JSON string literal (after the opening quote);
returns the input following the closing quote.  Control characters below
0x20 are rejected, as in strict `json.loads`. -/
def jpStringRest : List Char → Option (List Char)
  | [] => none
  | c :: rest =>
    if c = '"' then some rest
    else if c = '\\' then
      match rest with
      | [] => none
      | e :: rest2 =>
        if e = '"' ∨ e = '\\' ∨ e = '/' ∨ e = 'b' ∨ e = 'f' ∨ e = 'n' ∨ e = 'r' ∨ e = 't' then
          jpStringRest rest2
        else if e = 'u' then
          match rest2 with
          | h1 :: h2 :: h3 :: h4 :: rest3 =>
            if jpHex h1 && jpHex h2 && jpHex h3 && jpHex h4 then jpStringRest rest3 else none
          | _ => none
        else none
    else if 0x20 ≤ c.toNat then jpStringRest rest
    else none

/-- Parse a JSON number; returns the remaining input. -/
def jpNumber (l : List Char) : Option (List Char) :=
  let l1 := match l with
    | '-' :: r => r
    | _ => l
  match l1 with
  | [] => none
  | c :: rest =>
    if !c.isDigit then none
    else
      let afterInt := if c = '0' then rest else rest.dropWhile Char.isDigit
      let afterFrac : Option (List Char) := match afterInt with
        | '.' :: r =>
          match r with
          | d :: r2 => if d.isDigit then some (r2.dropWhile Char.isDigit) else none
          | [] => none
        | _ => some afterInt
      match afterFrac with
      | none => none
      | some l2 =>
        match l2 with
        | e :: r =>
          if e = 'e' ∨ e = 'E' then
            let r' := match r with
              | s :: r2 => if s = '+' ∨ s = '-' then r2 else r
              | [] => r
            match r' with
            | d :: r2 => if d.isDigit then some (r2.dropWhile Char.isDigit) else none
            | [] => none
          else some l2
        | [] => some l2

/-- Parsing mode for the fuel-indexed JSON syntax checker. -/
inductive JMode
  | val
  | members
  | elems
deriving DecidableEq

/-- Fuel-indexed recursive-descent JSON syntax checker modelling
`json.loads` acceptance; returns the input remaining after one value
(mode `val`), after the members of an object up to and including its
closing brace (mode `members`), or after the elements of an array up to
and including its closing bracket (mode `elems`). -/
def jpGo : Nat → JMode → List Char → Option (List Char)
  | 0, _, _ => none
  | fuel + 1, .val, l =>
    (match jsonWsDrop l with
     | [] => none
     | c :: rest =>
       if c = '"' then jpStringRest rest
       else if c = '\x7b' then
         match jsonWsDrop rest with
         | '\x7d' :: r => some r
         | l2 => jpGo fuel .members l2
       else if c = '[' then
         match jsonWsDrop rest with
         | ']' :: r => some r
         | l2 => jpGo fuel .elems l2
       else if c = 't' then
         match rest with
         | 'r' :: 'u' :: 'e' :: r => some r
         | _ => none
       else if c = 'f' then
         match rest with
         | 'a' :: 'l' :: 's' :: 'e' :: r => some r
         | _ => none
       else if c = 'n' then
         match rest with
         | 'u' :: 'l' :: 'l' :: r => some r
         | _ => none
       else jpNumber (c :: rest))
  | fuel + 1, .members, l =>
    (match l with
     | '"' :: r =>
       match jpStringRest r with
       | some r2 =>
         (match jsonWsDrop r2 with
          | ':' :: r3 =>
            match jpGo fuel .val (jsonWsDrop r3) with
            | some r4 =>
              (match jsonWsDrop r4 with
               | ',' :: r5 => jpGo fuel .members (jsonWsDrop r5)
               | '\x7d' :: r5 => some r5
               | _ => none)
            | none => none
          | _ => none)
       | none => none
     | _ => none)
  | fuel + 1, .elems, l =>
    (match jpGo fuel .val l with
     | some r =>
       (match jsonWsDrop r with
        | ',' :: r2 => jpGo fuel .elems (jsonWsDrop r2)
        | ']' :: r2 => some r2
        | _ => none)
     | none => none)

/-- Acceptance by the JSON syntax checker: one value followed only by
whitespace (models a successful `json.loads`). -/
def jsonValid (s : String) : Bool :=
  match jpGo (s.length + 1) .val s.data with
  | some rest => (jsonWsDrop rest).isEmpty
  | none => false

theorem dropWhile_eq_self_of {p : Char → Bool} {l : List Char}
    (h : ∀ c ∈ l, p c = false) : l.dropWhile p = l := by
  cases l with
  | nil => rfl
  | cons c rest =>
    rw [List.dropWhile_cons, h c (List.mem_cons_self c rest)]
    simp

theorem pyStripL_eq_self_of {l : List Char}
    (h : ∀ c ∈ l, isPySpace c = false) : pyStripL l = l := by
  unfold pyStripL stripBoth stripLeading stripTrailing
  rw [dropWhile_eq_self_of h]
  rw [dropWhile_eq_self_of (fun c hc => h c (List.mem_reverse.mp hc))]
  exact List.reverse_reverse l

theorem stripBom_eq_self_of {l : List Char} (h : ∀ c ∈ l, c ≠ '﻿') :
    stripBom l = l := by
  unfold stripBom
  split
  · next rest => exact absurd rfl (h _ (List.mem_cons_self _ rest))
  · rfl

theorem fix1Go_eq_self_of {l : List Char} (h : ∀ c ∈ l, c ≠ '"') :
    fix1Go l none = l := by
  induction l with
  | nil => rfl
  | cons c rest ih =>
    rw [fix1Go, if_neg (h c (List.mem_cons_self c rest))]
    rw [ih fun x hx => h x (List.mem_cons_of_mem c hx)]

theorem fix2Go_eq_self_of {l : List Char} (h : ∀ c ∈ l, c ≠ '\n') :
    fix2Go l none = l := by
  induction l with
  | nil => rfl
  | cons c rest ih =>
    rw [fix2Go, if_neg (h c (List.mem_cons_self c rest))]
    rw [ih fun x hx => h x (List.mem_cons_of_mem c hx)]

theorem fixCommaGo_eq_self_of {close : Char} {l : List Char}
    (h : ∀ c ∈ l, c ≠ ',') : fixCommaGo close l none = l := by
  induction l with
  | nil => rfl
  | cons c rest ih =>
    rw [fixCommaGo, if_neg (h c (List.mem_cons_self c rest))]
    rw [ih fun x hx => h x (List.mem_cons_of_mem c hx)]

theorem fixComplete_eq_self_of {l : List Char}
    (h : (pyStripL l).getLast? = some '\x7d') : fixComplete l = l := by
  unfold fixComplete
  rw [if_pos h]

/-- C9 counterexample: the repair is not idempotent (two commas before a
closing brace need two passes), and it alters non-whitespace content of
already-valid JSON (a comma inside a string value directly before a brace
is deleted). -/
theorem c9_counterexample :
    jsonValid "\x7b\"a\": \",\x7d\"\x7d" = true ∧
    fix_json_format "\x7b\"a\": \",\x7d\"\x7d" = "\x7b\"a\": \"\x7d\"\x7d" ∧
    ("\x7b\"a\": \",\x7d\"\x7d".data.filter fun c => !isPySpace c) ≠
      ((fix_json_format "\x7b\"a\": \",\x7d\"\x7d").data.filter fun c => !isPySpace c) ∧
    fix_json_format (fix_json_format ",,\x7d") ≠ fix_json_format ",,\x7d" := by
  refine ⟨by decide, by decide, by decide, by decide⟩

/-- C9 (amended): the repair is the identity — hence idempotent — on any
text that ends in a closing brace and contains no quote, comma,
whitespace, removed control character or BOM; in general it is neither
unchanged-modulo-whitespace on valid JSON nor idempotent (see the
counterexample). -/
theorem c9_repair_amended (s : String)
    (hchars : ∀ c ∈ s.data, c ≠ '"' ∧ c ≠ ',' ∧ isPySpace c = false ∧
      isCtrlRemoved c = false ∧ c ≠ '﻿')
    (hlast : s.data.getLast? = some '\x7d') :
    fix_json_format s = s ∧
    fix_json_format (fix_json_format s) = fix_json_format s := by
  have hid : fix_json_format s = s := by
    unfold fix_json_format
    rw [stripBom_eq_self_of fun c hc => (hchars c hc).2.2.2.2]
    rw [fix1Go_eq_self_of fun c hc => (hchars c hc).1]
    rw [fix2Go_eq_self_of fun c hc => by
      have := (hchars c hc).2.2.1
      intro hcn
      rw [hcn] at this
      exact absurd this (by decide)]
    rw [List.filter_eq_self.mpr fun c hc => by
      rw [(hchars c hc).2.2.2.1]; rfl]
    rw [fixCommaGo_eq_self_of fun c hc => (hchars c hc).2.1]
    rw [fixCommaGo_eq_self_of fun c hc => (hchars c hc).2.1]
    rw [fixComplete_eq_self_of (by
      rw [pyStripL_eq_self_of fun c hc => (hchars c hc).2.2.1]
      exact hlast)]
    rw [pyStripL_eq_self_of fun c hc => (hchars c hc).2.2.1]
  exact ⟨hid, by rw [hid, hid]⟩

/-- C9 witness: the single-character text consisting of a closing brace
satisfies the hypotheses and is fixed by the repair. -/
theorem c9_witness :
    fix_json_format "\x7d" = "\x7d" ∧
    fix_json_format (fix_json_format "\x7d") = fix_json_format "\x7d" :=
  c9_repair_amended "\x7d" (by decide) (by decide)

/-- C6 counterexample: a JSON string value broken across a line, as in the
value of key a being the characters wo, line break, rd, is NOT repaired:
the line break is adjacent to no quote, so both substitutions leave the
text unchanged, the raw line break stays inside the string literal, and
the text does not parse as JSON. -/
theorem c6_counterexample :
    fix_json_format "\x7b\"a\": \"wo\nrd\"\x7d" = "\x7b\"a\": \"wo\nrd\"\x7d" ∧
    jsonValid "\x7b\"a\": \"wo\nrd\"\x7d" = false := by
  refine ⟨by decide, by decide⟩

/-- C6 (amended): the repair collapses line breaks adjacent to a quote —
a whitespace run containing a line break that follows a quote is deleted,
and a line break (plus whitespace) immediately before a quote is deleted —
and the repaired texts parse; a line break strictly inside a string value
is left in place. -/
theorem c6_json_repair_amended :
    fix_json_format "\x7b\"a\": \"x\",\n\"b\": \"y\"\x7d" = "\x7b\"a\": \"x\",\"b\": \"y\"\x7d" ∧
    jsonValid (fix_json_format "\x7b\"a\": \"x\",\n\"b\": \"y\"\x7d") = true ∧
    fix_json_format "\x7b\"a\": \"x\"\n\x7d" = "\x7b\"a\": \"x\"\x7d" ∧
    jsonValid (fix_json_format "\x7b\"a\": \"x\"\n\x7d") = true := by
  refine ⟨by decide, by decide, by decide, by decide⟩

/-- `AIExerciseGenerator.parse_batch_ai_response` after `json.loads`
(lines 293-320): map each parsed exercise entry back to its batch subtitle
via the 1-based sentence index (entries with out-of-range indices are
skipped), validate its blanks, and return `none` when no entry survives
(the Python function returns `results if results else None`; `none` also
stands for the exception/malformed-JSON outcome). -/
def parse_batch_exercises_data (ds : List RawExercise) (batch : List Subtitle)
    (batch_start : Nat) (total : Nat) : Option (List Exercise) :=
  let results := ds.filterMap fun ed =>
    let sidx : Int := ed.sentence_index.getD 1 - 1
    if 0 ≤ sidx ∧ sidx < (batch.length : Int) then
      let st := batch.getD sidx.toNat ⟨0, 0, 0, ""⟩
      some ⟨st.text, validate_blanks ed.blanks st.text,
            batch_start + sidx.toNat + 1, total, st.index, st.start_time, st.end_time⟩
    else none
  if results = [] then none else some results

/-- The batch loop of `AIExerciseGenerator.generate_exercises`
(lines 39-60), fuel-indexed for structural recursion (the fuel is the
subtitle count, which bounds the number of batches).  `gb` stands for
`generate_batch_exercises` and `gs` for `generate_single_exercise`; both
absorb their own exceptions and return `none` on failure, as in the
source (lines 81-83 and 108-110).  A batch result that is `None` or an
empty list is falsy in Python, so only a non-empty batch result is kept;
otherwise every member of the batch is retried individually. -/
def processBatchesGo (gb : List Subtitle → Nat → Nat → Option (List Exercise))
    (gs : Subtitle → Nat → Nat → Option Exercise) (total : Nat) :
    Nat → List Subtitle → Nat → List Exercise
  | _, [], _ => []
  | 0, _ :: _, _ => []
  | fuel + 1, s :: rest, batch_start =>
    let batch := (s :: rest).take 10
    let cur := match gb batch batch_start total with
      | some (e :: es) => e :: es
      | _ => batch.enum.filterMap fun p => gs p.2 (batch_start + p.1 + 1) total
    cur ++ processBatchesGo gb gs total fuel ((s :: rest).drop 10) (batch_start + 10)

/-- `AIExerciseGenerator.generate_exercises` (lines 23-65): missing API
key or URL short-circuits with a failure outcome; otherwise the batches
of 10 are processed and a success outcome is always emitted, its message
carrying the number of generated exercises. -/
def generate_exercises (cfg : AiConfig)
    (gb : List Subtitle → Nat → Nat → Option (List Exercise))
    (gs : Subtitle → Nat → Nat → Option Exercise)
    (subtitles : List Subtitle) : GenResult :=
  if cfg.api_key = "" ∨ cfg.api_url = "" then
    ⟨false, "Please configure AI service first", []⟩
  else
    let exs := processBatchesGo gb gs subtitles.length subtitles.length subtitles 0
    ⟨true, "Successfully generated " ++ toString exs.length ++ " exercises", exs⟩

theorem processBatchesGo_nil (gb : List Subtitle → Nat → Nat → Option (List Exercise))
    (gs : Subtitle → Nat → Nat → Option Exercise) (total fuel batch_start : Nat) :
    processBatchesGo gb gs total fuel [] batch_start = [] := by
  cases fuel <;> rfl

theorem processBatchesGo_single (gb : List Subtitle → Nat → Nat → Option (List Exercise))
    (gs : Subtitle → Nat → Nat → Option Exercise) (subs : List Subtitle) (total bs : Nat)
    (h1 : subs ≠ []) (h10 : subs.length ≤ 10) :
    processBatchesGo gb gs total subs.length subs bs =
      match gb subs bs total with
      | some (e :: es) => e :: es
      | _ => subs.enum.filterMap fun p => gs p.2 (bs + p.1 + 1) total := by
  cases subs with
  | nil => exact absurd rfl h1
  | cons s rest =>
    show processBatchesGo gb gs total (rest.length + 1) (s :: rest) bs = _
    rw [processBatchesGo]
    rw [List.take_of_length_le h10, List.drop_eq_nil_of_le h10, processBatchesGo_nil,
      List.append_nil]

/-- The three-sentence batch of the C3 scenario. -/
def c3Subs : List Subtitle :=
  [⟨1, 0, 1, "uno"⟩, ⟨2, 1, 2, "dos"⟩, ⟨3, 2, 3, "tres"⟩]

/-- A parsed batch response covering only sentence_index 1 and 3. -/
def c3Raw : List RawExercise :=
  [⟨some 1, [⟨some 0, some "uno", none, none⟩]⟩,
   ⟨some 3, [⟨some 0, some "tres", none, none⟩]⟩]

/-- Batch generator whose (remote) response parses to `c3Raw`. -/
def c3Gb : List Subtitle → Nat → Nat → Option (List Exercise) :=
  fun batch bs tot => parse_batch_exercises_data c3Raw batch bs tot

/-- A single-sentence generator that succeeds on every subtitle (so a
per-sentence fallback for the dropped batch member would visibly add its
record). -/
def c3Gs : Subtitle → Nat → Nat → Option Exercise :=
  fun st cur tot => some ⟨st.text, [], cur, tot, st.index, st.start_time, st.end_time⟩

/-- C3 counterexample: a 3-sentence batch whose response covers only
sentence_index 1 and 3 keeps those two records (at the correct positions
1 and 3), but the dropped middle sentence does NOT fall through to
single-sentence generation — even though the single-sentence generator
succeeds on every input, no record with text "dos" appears.  Per-sentence
fallback happens only when the whole batch yields nothing. -/
theorem c3_counterexample :
    ((generate_exercises ⟨"k", "u"⟩ c3Gb c3Gs c3Subs).exercises.map
      fun e => e.original_text) = ["uno", "tres"] ∧
    ((generate_exercises ⟨"k", "u"⟩ c3Gb c3Gs c3Subs).exercises.map
      fun e => e.current) = [1, 3] ∧
    c3Gs ⟨2, 1, 2, "dos"⟩ 2 3 = some ⟨"dos", [], 2, 3, 2, 1, 2⟩ := by
  refine ⟨by decide, by decide, by decide⟩

/-- C3 (amended): an individual omitted or unparseable batch entry never
aborts the batch — a non-empty batch result is kept verbatim and the
dropped members are simply absent, with no per-sentence retry for them;
the per-sentence fallback runs (for every member of the batch) exactly
when the batch as a whole yields no record (a `None` or empty result). -/
theorem c3_batch_fallback_amended (cfg : AiConfig)
    (gb : List Subtitle → Nat → Nat → Option (List Exercise))
    (gs : Subtitle → Nat → Nat → Option Exercise)
    (subs : List Subtitle)
    (hk : cfg.api_key ≠ "") (hu : cfg.api_url ≠ "")
    (hne : subs ≠ []) (hlen : subs.length ≤ 10) :
    ((∃ e es, gb subs 0 subs.length = some (e :: es)) →
      (generate_exercises cfg gb gs subs).exercises = (gb subs 0 subs.length).getD []) ∧
    ((gb subs 0 subs.length = none ∨ gb subs 0 subs.length = some []) →
      (generate_exercises cfg gb gs subs).exercises =
        subs.enum.filterMap fun p => gs p.2 (p.1 + 1) subs.length) := by
  have hgen : (generate_exercises cfg gb gs subs).exercises =
      processBatchesGo gb gs subs.length subs.length subs 0 := by
    unfold generate_exercises
    rw [if_neg (by tauto)]
  rw [hgen, processBatchesGo_single gb gs subs subs.length 0 hne hlen]
  constructor
  · rintro ⟨e, es, heq⟩
    rw [heq]
    rfl
  · rintro (heq | heq) <;> rw [heq] <;> simp

/-- C3 witness: a one-sentence request whose batch generation fails falls
back to per-sentence generation. -/
theorem c3_witness :
    (generate_exercises ⟨"k", "u"⟩ (fun _ _ _ => none) c3Gs [⟨1, 0, 1, "uno"⟩]).exercises =
      ([⟨1, 0, 1, "uno"⟩] : List Subtitle).enum.filterMap
        (fun p => c3Gs p.2 (p.1 + 1) ([⟨1, 0, 1, "uno"⟩] : List Subtitle).length) :=
  (c3_batch_fallback_amended ⟨"k", "u"⟩ (fun _ _ _ => none) c3Gs [⟨1, 0, 1, "uno"⟩]
    (by decide) (by decide) (by decide) (by decide)).2 (Or.inl rfl)

/-- C7 counterexample: with a configured service, a request whose every
batch and every per-sentence fallback yields nothing is reported as
success with the message "Successfully generated 0 exercises" — the
success flag is true, not false as the claim requires. -/
theorem c7_counterexample :
    generate_exercises ⟨"key", "url"⟩ (fun _ _ _ => none) (fun _ _ _ => none)
        [⟨1, 0, 1, "uno"⟩] =
      ⟨true, "Successfully generated 0 exercises", []⟩ := by
  decide

/-- C7 (amended): only a missing API key or URL produces a failure outcome
(success false with a message, before any generation); once the service is
configured, the finished outcome always carries success true — even when
zero records were produced — with a message reporting the count; per-item
failures are absorbed. -/
theorem c7_propagation_amended :
    (∀ (cfg : AiConfig) gb gs subs, (cfg.api_key = "" ∨ cfg.api_url = "") →
      generate_exercises cfg gb gs subs = ⟨false, "Please configure AI service first", []⟩) ∧
    (∀ (cfg : AiConfig) gb gs subs, cfg.api_key ≠ "" → cfg.api_url ≠ "" →
      (generate_exercises cfg gb gs subs).success = true ∧
      (generate_exercises cfg gb gs subs).message =
        "Successfully generated " ++
          toString (generate_exercises cfg gb gs subs).exercises.length ++ " exercises") := by
  constructor
  · intro cfg gb gs subs h
    unfold generate_exercises
    rw [if_pos h]
  · intro cfg gb gs subs hk hu
    unfold generate_exercises
    rw [if_neg (by tauto)]
    exact ⟨rfl, rfl⟩

/-- C7 witness: the two outcomes at concrete configurations. -/
theorem c7_witness :
    generate_exercises ⟨"", "u"⟩ (fun _ _ _ => none) (fun _ _ _ => none) [] =
      ⟨false, "Please configure AI service first", []⟩ ∧
    (generate_exercises ⟨"k", "u"⟩ (fun _ _ _ => none) (fun _ _ _ => none) []).success = true :=
  ⟨c7_propagation_amended.1 ⟨"", "u"⟩ (fun _ _ _ => none) (fun _ _ _ => none) [] (Or.inl rfl),
   (c7_propagation_amended.2 ⟨"k", "u"⟩ (fun _ _ _ => none) (fun _ _ _ => none) []
     (by decide) (by decide)).1⟩

/-- The closed stopword set of `main_window._ensure_min_blanks`. -/
def ensureMinStopwords : List String :=
  ["the", "a", "an", "is", "are", "am", "was", "were", "be", "been", "being",
   "and", "or", "but", "to", "of", "in", "on", "at", "for", "from", "by",
   "with", "as", "that", "this", "these", "those", "it", "its", "he", "she",
   "they", "we", "you", "i", "me", "him", "her", "them", "us", "your",
   "our", "their", "my"]

/-- The primary candidate indices of `_ensure_min_blanks`: cleaned words of
length at least 3 whose lower-case form is not a stopword. -/
def ensureMinCands1 (cleaned : List String) : List Nat :=
  (List.range cleaned.length).filter fun i =>
    decide (3 ≤ (cleaned.getD i "").length) &&
    !decide (pyLower (cleaned.getD i "") ∈ ensureMinStopwords)

/-- The candidate indices of `_ensure_min_blanks` after the relaxation:
when the primary list is empty, any index with a non-empty cleaned word. -/
def ensureMinCands (cleaned : List String) : List Nat :=
  if ensureMinCands1 cleaned = [] then
    (List.range cleaned.length).filter fun i =>
      decide (1 ≤ (cleaned.getD i "").length)
  else ensureMinCands1 cleaned

/-- The per-record body of `MainWindow._ensure_min_blanks` (lines 105-132).
A record with blanks, or with no words, is kept as is; otherwise one
candidate index of the cleaned words is chosen at random —
`random.choice` is abstracted as the argument `choose`, and `none` models
the IndexError it raises on an empty candidate list — and a single blank
is synthesised (skipped if the chosen cleaned word is empty). -/
def ensure_min_blanks_item (choose : List Nat → Nat) (item : Exercise) : Option Exercise :=
  if item.blanks ≠ [] then some item
  else if splitWs item.original_text = [] then some item
  else if ensureMinCands ((splitWs item.original_text).map cleanWord) = [] then none
  else if ((splitWs item.original_text).map cleanWord).getD
      (choose (ensureMinCands ((splitWs item.original_text).map cleanWord))) "" = "" then
    some item
  else
    some { item with blanks :=
      [⟨choose (ensureMinCands ((splitWs item.original_text).map cleanWord)),
        ((splitWs item.original_text).map cleanWord).getD
          (choose (ensureMinCands ((splitWs item.original_text).map cleanWord))) "",
        toString (((splitWs item.original_text).map cleanWord).getD
          (choose (ensureMinCands ((splitWs item.original_text).map cleanWord))) "").length
          ++ " letters",
        "medium"⟩] }

/-- `MainWindow._ensure_min_blanks` over a full exercise list (the Python
mutates the list in place; an IndexError from `random.choice` aborts the
pass, modelled by the `Option`). -/
def ensure_min_blanks (choose : List Nat → Nat) (exercises : List Exercise) :
    Option (List Exercise) :=
  exercises.mapM (ensure_min_blanks_item choose)

/-- The candidate indices of `_ensure_exercise_has_blank`: cleaned words of
length at least 3 (no stopword filter), relaxing to non-empty words. -/
def ensureHasBlankCands (cleaned : List String) : List Nat :=
  if ((List.range cleaned.length).filter fun i =>
      decide (3 ≤ (cleaned.getD i "").length)) = [] then
    (List.range cleaned.length).filter fun i =>
      decide (1 ≤ (cleaned.getD i "").length)
  else
    (List.range cleaned.length).filter fun i =>
      decide (3 ≤ (cleaned.getD i "").length)

/-- The body of `MainWindow._ensure_exercise_has_blank` (lines 134-159):
like `_ensure_min_blanks` but without the stopword filter; the Python
returns the record unchanged when the chosen cleaned word is empty. -/
def ensure_exercise_has_blank (choose : List Nat → Nat) (item : Exercise) : Option Exercise :=
  if item.blanks ≠ [] then some item
  else if splitWs item.original_text = [] then some item
  else if ensureHasBlankCands ((splitWs item.original_text).map cleanWord) = [] then none
  else if ((splitWs item.original_text).map cleanWord).getD
      (choose (ensureHasBlankCands ((splitWs item.original_text).map cleanWord))) "" = "" then
    some item
  else
    some { item with blanks :=
      [⟨choose (ensureHasBlankCands ((splitWs item.original_text).map cleanWord)),
        ((splitWs item.original_text).map cleanWord).getD
          (choose (ensureHasBlankCands ((splitWs item.original_text).map cleanWord))) "",
        toString (((splitWs item.original_text).map cleanWord).getD
          (choose (ensureHasBlankCands ((splitWs item.original_text).map cleanWord))) "").length
          ++ " letters",
        "medium"⟩] }

theorem one_le_string_length {w : String} (h : w ≠ "") : 1 ≤ w.length := by
  cases w with
  | mk data =>
    cases data with
    | nil => exact absurd rfl h
    | cons c cs =>
      show 1 ≤ (c :: cs).length
      simp

theorem ensureMinCands_ne_nil {cleaned : List String} {i : Nat} (hi : i < cleaned.length)
    (hlen : 1 ≤ (cleaned.getD i "").length) : ensureMinCands cleaned ≠ [] := by
  unfold ensureMinCands
  split
  · intro hnil
    have hmem : i ∈ (List.range cleaned.length).filter fun i =>
        decide (1 ≤ (cleaned.getD i "").length) :=
      List.mem_filter.mpr ⟨List.mem_range.mpr hi, by simpa using hlen⟩
    rw [hnil] at hmem
    simp at hmem
  · next hne => exact hne

theorem ensureMinCands_ans_ne {cleaned : List String} {i : Nat}
    (h : i ∈ ensureMinCands cleaned) : cleaned.getD i "" ≠ "" := by
  unfold ensureMinCands at h
  intro hcontra
  split at h
  · have := (List.mem_filter.mp h).2
    rw [hcontra] at this
    simp at this
  · have := (List.mem_filter.mp h).2
    rw [hcontra] at this
    simp [ensureMinCands1] at this

/-- C2: for every record whose text splits into at least one word, of
which at least one survives the pass's punctuation-stripping as non-empty,
the repair pass of `_ensure_min_blanks` succeeds on the record and leaves
it with at least one blank (`choose` is any function satisfying the
`random.choice` contract of returning a member of a non-empty list). -/
theorem c2_non_empty_guarantee (choose : List Nat → Nat) (item : Exercise)
    (hchoose : ∀ l : List Nat, l ≠ [] → choose l ∈ l)
    (hwords : splitWs item.original_text ≠ [])
    (hsurv : ∃ w ∈ (splitWs item.original_text).map cleanWord, w ≠ "") :
    ∃ e, ensure_min_blanks_item choose item = some e ∧ 1 ≤ e.blanks.length := by
  unfold ensure_min_blanks_item
  by_cases hb : item.blanks ≠ []
  · rw [if_pos hb]
    refine ⟨item, rfl, ?_⟩
    cases h : item.blanks with
    | nil => exact absurd h hb
    | cons x xs => simp [h]
  · rw [if_neg hb, if_neg hwords]
    obtain ⟨w, hwmem, hwne⟩ := hsurv
    obtain ⟨i, hi, hgi⟩ := List.getElem_of_mem hwmem
    have hlen1 : 1 ≤ (((splitWs item.original_text).map cleanWord).getD i "").length := by
      rw [List.getD_eq_getElem _ _ hi, hgi]
      exact one_le_string_length hwne
    have hcands := ensureMinCands_ne_nil hi hlen1
    rw [if_neg hcands]
    have hansne := ensureMinCands_ans_ne
      (hchoose (ensureMinCands ((splitWs item.original_text).map cleanWord)) hcands)
    rw [if_neg hansne]
    exact ⟨_, rfl, by simp⟩

/-- C2 witness: a concrete record with empty blanks and the text
"Hola mundo." is repaired to one blank. -/
theorem c2_witness :
    ∃ e, ensure_min_blanks_item (fun l => l.headD 0)
        ⟨"Hola mundo.", [], 1, 1, 0, 0, 1⟩ = some e ∧ 1 ≤ e.blanks.length :=
  c2_non_empty_guarantee (fun l => l.headD 0) ⟨"Hola mundo.", [], 1, 1, 0, 0, 1⟩
    (fun l hl => by
      cases l with
      | nil => exact absurd rfl hl
      | cons a t => simp [List.headD])
    (by decide)
    ⟨"Hola", by decide, by decide⟩

/-- `spacy_cloze._pos_zh`: localized part-of-speech label. -/
def pos_zh (pos : String) : String :=
  if pos = "NOUN" then "名词"
  else if pos = "PROPN" then "专有名词"
  else if pos = "VERB" then "动词"
  else if pos = "AUX" then "助动词"
  else if pos = "ADJ" then "形容词"
  else if pos = "ADV" then "副词"
  else if pos = "PRON" then "代词"
  else if pos = "DET" then "限定词"
  else if pos = "ADP" then "介词"
  else if pos = "CCONJ" then "并列连词"
  else if pos = "SCONJ" then "从属连词"
  else if pos = "NUM" then "数词"
  else if pos = "PART" then "小品词"
  else if pos = "INTJ" then "感叹词"
  else if pos = "SYM" then "符号"
  else pos

/-- `spacy_cloze._difficulty_by_len`. -/
def difficulty_by_len (s : String) : String :=
  if s.length ≤ 4 then "easy"
  else if s.length ≤ 7 then "medium"
  else "hard"

/-- `spacy_cloze.ensure_nlp` (lines 51-73): Spanish-only model loading.
The external outcome of importing spaCy and loading the Spanish model
(md, falling back to sm) is the argument `load`; any other language
returns `none`.  The module-level cache only memoises the same load
outcome, so it is transparent here. -/
def ensure_nlp (load : Option Nlp) (language : String) : Option Nlp :=
  if pyLower language ∈ ["spanish", "es", "español"] then load else none

/-- The forward scan of `_align_spacy_tokens_to_split_words`: the first
index `k` at or after `i` with `l` matching `t` there; `none` if no match. -/
def findFromGo (t : String) : List String → Nat → Option Nat
  | [], _ => none
  | w :: ws, k => if w = t then some k else findFromGo t ws (k + 1)

/-- `while k < len(norm_words)` scan starting at cursor `i`. -/
def findFrom (l : List String) (t : String) (i : Nat) : Option Nat :=
  findFromGo t (l.drop i) i

/-- The loop of `_align_spacy_tokens_to_split_words` (lines 87-104) over
the remaining tokens, carrying the next token index `j` and the word
cursor `i`: empty or whitespace-only and non-alphabetic tokens are
skipped; an alphabetic token maps to the first word at or after the
cursor whose normalised form equals its lower-cased text, advancing the
cursor past that word; unmatched tokens leave the cursor unchanged. -/
def alignAux (norm : List String) : List Token → Nat → Nat → List (Nat × Nat)
  | [], _, _ => []
  | tok :: rest, j, i =>
    if pyStrip tok.text = "" then alignAux norm rest (j + 1) i
    else if !tok.is_alpha then alignAux norm rest (j + 1) i
    else
      match findFrom norm (pyLower tok.text) i with
      | some found => (j, found) :: alignAux norm rest (j + 1) (found + 1)
      | none => alignAux norm rest (j + 1) i

/-- `spacy_cloze._align_spacy_tokens_to_split_words` (lines 76-104):
greedy left-to-right alignment of spaCy token indices to indices of
`text.split()`, matching lower-cased token text against lower-cased,
punctuation-stripped words.  The Python insertion-ordered dict is a list
of (token index, word index) pairs here. -/
def align_spacy_tokens_to_split_words (text : String) (doc : List Token) :
    List (Nat × Nat) :=
  alignAux ((splitWs text).map fun w => pyLower (strip_punct w)) doc 0 0

/-- The entity bonus of the ranking keys in `spacy_cloze`. -/
def ent_bonus (prefer : Bool) (tok : Token) : Nat :=
  if prefer && (tok.ent_iob ≠ "O" || tok.pos = "PROPN") then 1 else 0

/-- `_rankcand` of `select_blanks_spacy`: (entity bonus, token length,
negated word index). -/
def rankcand (prefer : Bool) (wt : Nat × Token) : Nat × Nat × Int :=
  (ent_bonus prefer wt.2, wt.2.text.length, -(wt.1 : Int))

/-- `_rank` / `_rankfinal`: (entity bonus, token length). -/
def rankfinal (prefer : Bool) (wt : Nat × Token) : Nat × Nat :=
  (ent_bonus prefer wt.2, wt.2.text.length)

/-- The dedup key of `suggest_candidates_for_ai`:
(negated token length, word index), sorted ascending. -/
def suggest_key (wt : Nat × Token) : Int × Nat :=
  (-(wt.2.text.length : Int), wt.1)

/-- Lexicographic order on (Nat, Nat, Int) triples (Python tuple order). -/
def lexLe3 (a b : Nat × Nat × Int) : Bool :=
  decide (a.1 < b.1 ∨ (a.1 = b.1 ∧ (a.2.1 < b.2.1 ∨ (a.2.1 = b.2.1 ∧ a.2.2 ≤ b.2.2))))

/-- Lexicographic order on (Nat, Nat) pairs. -/
def lexLe2 (a b : Nat × Nat) : Bool :=
  decide (a.1 < b.1 ∨ (a.1 = b.1 ∧ a.2 ≤ b.2))

/-- Lexicographic order on (Int, Nat) pairs. -/
def lexLe2I (a b : Int × Nat) : Bool :=
  decide (a.1 < b.1 ∨ (a.1 = b.1 ∧ a.2 ≤ b.2))

/-- Python `dict.setdefault` on an insertion-ordered association list:
append the pair only when the key is absent. -/
def setdefaultKV (m : List (Nat × Token)) (wt : Nat × Token) : List (Nat × Token) :=
  if m.any fun p => p.1 == wt.1 then m else m ++ [wt]

/-- The candidate-collection loop shared by `select_blanks_spacy`
(lines 234-248, and its relaxed retry 252-263 with `useMask := false`)
and `suggest_candidates_for_ai` (lines 161-174): tokens aligned to a word,
alphabetic, non-stopword when excluded, POS-eligible when the mask is
applied, with a non-empty punctuation-stripped word. -/
def spacy_collect (useMask : Bool) (text : String) (doc : List Token)
    (exclude_stop : Bool) (allowed_pos : Option (List String)) (fa : List String) :
    List (Nat × Token) :=
  doc.enum.filterMap fun tt =>
    match (align_spacy_tokens_to_split_words text doc).lookup tt.1 with
    | none => none
    | some widx =>
      if !tt.2.is_alpha then none
      else if exclude_stop && tt.2.is_stop then none
      else if useMask && !candidate_mask tt.2.pos allowed_pos (some fa) then none
      else if strip_punct ((splitWs text).getD widx "") = "" then none
      else some (widx, tt.2)

/-- The target blank count of both spaCy entry points (lines 277-282 /
181-187): a positive `max_blanks` wins; otherwise the density formula
capped to 2 (the product over 100 truncated toward zero as Python
`int(...)` does). -/
def spacy_target (max_blanks density : Int) (nwords : Nat) : Int :=
  if max_blanks > 0 then max_blanks
  else max 1 (min 2 (max 1 (Int.tdiv ((nwords : Int) * density) 100)))

/-- The final blank construction of `select_blanks_spacy` (lines 291-314):
answer is the stripped word at the selected index (skipped when empty),
the hint joins the localized POS, an optional lemma hint and the
first-letter hint, and the difficulty is length-based. -/
def spacy_blank_of (hint_lemma : Bool) (words : List String) (wt : Nat × Token) :
    Option Blank :=
  if strip_punct (words.getD wt.1 "") = "" then none
  else
    some ⟨wt.1, strip_punct (words.getD wt.1 ""),
      String.intercalate "，"
        ([pos_zh wt.2.pos] ++
         (if hint_lemma &&
             (pyLower wt.2.lemma_ ≠ "" &&
              pyLower wt.2.lemma_ ≠ pyLower (strip_punct (words.getD wt.1 ""))) then
            ["词根：" ++ pyLower wt.2.lemma_] else []) ++
         (if strip_punct (words.getD wt.1 "") ≠ "" then
            ["首字母：" ++ String.mk [pyLowerChar ((strip_punct (words.getD wt.1 "")).data.headD ' ')]]
          else [])),
      difficulty_by_len (strip_punct (words.getD wt.1 ""))⟩

/-- spaCy-specific options of the exercise configuration
(`spacy_options`), every key optional. -/
structure SpacyOptions where
  pos : Option (List String) := none
  max_blanks : Option Int := none
  exclude_stop : Option Bool := none
  hint_lemma : Option Bool := none
  prefer_entities : Option Bool := none
deriving DecidableEq

/-- The exercise configuration dict as read by `spacy_cloze`. -/
structure ExerciseConfig where
  language : Option String := none
  focus_areas : Option (List String) := none
  blank_density : Option Int := none
  spacy_options : Option SpacyOptions := none
deriving DecidableEq

/-- The candidate list of `select_blanks_spacy` after the relaxed retry
(lines 250-263): when no candidate matches the focus areas, collect again
without the POS mask. -/
def spacy_candidates (text : String) (doc : List Token) (exclude_stop : Bool)
    (ap : Option (List String)) (fa : List String) : List (Nat × Token) :=
  if spacy_collect true text doc exclude_stop ap fa = [] then
    spacy_collect false text doc exclude_stop ap fa
  else spacy_collect true text doc exclude_stop ap fa

/-- The `by_index` dict of `select_blanks_spacy` (lines 268-274):
candidates in descending `_rankcand` order inserted with `setdefault`. -/
def spacy_by_index (prefer : Bool) (candidates : List (Nat × Token)) :
    List (Nat × Token) :=
  (pySortBy (fun a b => lexLe3 (rankcand prefer b) (rankcand prefer a))
    candidates).foldl setdefaultKV []

/-- The final selection (lines 284-289): `by_index` items in descending
`_rankfinal` order, cut to the target count. -/
def spacy_selection (prefer : Bool) (target : Int) (by_index : List (Nat × Token)) :
    List (Nat × Token) :=
  (pySortBy (fun a b => lexLe2 (rankfinal prefer b) (rankfinal prefer a))
    by_index).take target.toNat

/-- `spacy_cloze.select_blanks_spacy` (lines 212-314): resolve the
language (empty/whitespace defaults to Spanish), load the model (`load`
is the external Spanish-model outcome), tokenise, align, collect
candidates (relaxing the POS mask when none match), deduplicate by word
index in descending `_rankcand` order, rank by `_rankfinal` and take
`target`, and build the blank records. -/
def select_blanks_spacy (load : Option Nlp) (text : String) (cfg : ExerciseConfig) :
    List Blank :=
  match ensure_nlp load
      (if pyStrip (cfg.language.getD "") = "" then "Spanish"
       else pyStrip (cfg.language.getD "")) with
  | none => []
  | some nlp =>
    if spacy_candidates text (nlp text)
        ((cfg.spacy_options.getD ⟨none, none, none, none, none⟩).exclude_stop.getD true)
        (cfg.spacy_options.getD ⟨none, none, none, none, none⟩).pos
        (cfg.focus_areas.getD []) = [] then []
    else
      (spacy_selection
          ((cfg.spacy_options.getD ⟨none, none, none, none, none⟩).prefer_entities.getD true)
          (spacy_target
            ((cfg.spacy_options.getD ⟨none, none, none, none, none⟩).max_blanks.getD 2)
            (cfg.blank_density.getD 25) (splitWs text).length)
          (spacy_by_index
            ((cfg.spacy_options.getD ⟨none, none, none, none, none⟩).prefer_entities.getD true)
            (spacy_candidates text (nlp text)
              ((cfg.spacy_options.getD ⟨none, none, none, none, none⟩).exclude_stop.getD true)
              (cfg.spacy_options.getD ⟨none, none, none, none, none⟩).pos
              (cfg.focus_areas.getD [])))).filterMap
        (spacy_blank_of
          ((cfg.spacy_options.getD ⟨none, none, none, none, none⟩).hint_lemma.getD true)
          (splitWs text))

/-- A candidate suggestion of `suggest_candidates_for_ai`. -/
structure Candidate where
  position : Nat
  word : String
  pos : String
  lemma_ : String
  cn_pos : String
deriving DecidableEq

/-- `spacy_cloze.suggest_candidates_for_ai` (lines 139-209): same
collection as the strict pass of `select_blanks_spacy` (no relaxed
retry), deduplicated in ascending (negated token length, word index)
order, ranked by `_rank` and cut to `target`. -/
def suggest_candidates_for_ai (load : Option Nlp) (text : String) (cfg : ExerciseConfig) :
    List Candidate :=
  match ensure_nlp load
      (if pyStrip (cfg.language.getD "") = "" then "Spanish"
       else pyStrip (cfg.language.getD "")) with
  | none => []
  | some nlp =>
    let doc := nlp text
    let so := cfg.spacy_options.getD ⟨none, none, none, none, none⟩
    let exclude_stop := so.exclude_stop.getD true
    let prefer_entities := so.prefer_entities.getD true
    let candidates := spacy_collect true text doc exclude_stop so.pos (cfg.focus_areas.getD [])
    let by_index := (pySortBy (fun a b => lexLe2I (suggest_key a) (suggest_key b))
        candidates).foldl setdefaultKV []
    let target := spacy_target (so.max_blanks.getD 2) (cfg.blank_density.getD 25)
      (splitWs text).length
    ((pySortBy
        (fun a b => lexLe2 (rankfinal prefer_entities b) (rankfinal prefer_entities a))
        by_index).take target.toNat).filterMap fun wt =>
      if strip_punct ((splitWs text).getD wt.1 "") = "" then none
      else some ⟨wt.1, strip_punct ((splitWs text).getD wt.1 ""), wt.2.pos, wt.2.lemma_,
        pos_zh wt.2.pos⟩

theorem validate_blank_one_spec {words : List String} {b : RawBlank} {blank : Blank}
    (h : validate_blank_one words b = some blank) :
    0 ≤ b.position.getD (-1) ∧
    blank.position = (b.position.getD (-1)).toNat ∧
    blank.position < words.length ∧
    blank.answer = strip_punct_ai (words.getD blank.position "") := by
  unfold validate_blank_one at h
  split at h
  · next hrange =>
    split at h
    · cases h
      refine ⟨hrange.1, rfl, ?_, rfl⟩
      show (b.position.getD (-1)).toNat < words.length
      omega
    · exact absurd h (by simp)
  · exact absurd h (by simp)

/-- The default token used to state indexed access into the document. -/
def emptyTok : Token := ⟨"", "", "", false, false, ""⟩

theorem findFromGo_spec {t : String} {l : List String} {k r : Nat}
    (h : findFromGo t l k = some r) :
    k ≤ r ∧ r - k < l.length ∧ l.getD (r - k) "" = t := by
  induction l generalizing k with
  | nil => exact absurd h (by simp [findFromGo])
  | cons w ws ih =>
    rw [findFromGo] at h
    split at h
    · next heq =>
      cases h
      refine ⟨Nat.le_refl _, by simp, ?_⟩
      simpa using heq
    · obtain ⟨h1, h2, h3⟩ := ih h
      refine ⟨by omega, by simp; omega, ?_⟩
      have hrk : r - k = (r - (k + 1)) + 1 := by omega
      rw [hrk, List.getD_cons_succ]
      exact h3

theorem findFrom_spec {l : List String} {t : String} {i r : Nat}
    (h : findFrom l t i = some r) :
    i ≤ r ∧ r < l.length ∧ l.getD r "" = t := by
  obtain ⟨h1, h2, h3⟩ := findFromGo_spec h
  have hdrop : l.drop i ≠ [] := by
    intro hnil
    unfold findFrom at h
    rw [hnil] at h
    exact absurd h (by simp [findFromGo])
  have hi : i < l.length := by
    by_contra hcon
    push_neg at hcon
    exact hdrop (List.drop_eq_nil_of_le hcon)
  have hlen : (l.drop i).length = l.length - i := List.length_drop i l
  have h2' : r - i < l.length - i := by
    rw [hlen] at h2
    exact h2
  have hr : r < l.length := by
    have hadd := Nat.add_lt_add_right h2' i
    rw [Nat.sub_add_cancel h1, Nat.sub_add_cancel (Nat.le_of_lt hi)] at hadd
    exact hadd
  refine ⟨h1, hr, ?_⟩
  have hgd : (l.drop i).getD (r - i) "" = l.getD r "" := by
    rw [List.getD_eq_getElem?_getD, List.getD_eq_getElem?_getD, List.getElem?_drop,
      Nat.add_sub_cancel' h1]
  rw [← hgd]
  exact h3

theorem alignAux_mem {norm : List String} {toks : List Token} {j i : Nat}
    {p : Nat × Nat} (h : p ∈ alignAux norm toks j i) :
    j ≤ p.1 ∧ p.1 - j < toks.length ∧ i ≤ p.2 ∧ p.2 < norm.length ∧
    (toks.getD (p.1 - j) emptyTok).is_alpha = true ∧
    norm.getD p.2 "" = pyLower ((toks.getD (p.1 - j) emptyTok).text) := by
  induction toks generalizing j i with
  | nil => exact absurd h (by simp [alignAux])
  | cons tok rest ih =>
    rw [alignAux] at h
    split at h
    · obtain ⟨h1, h2, h3, h4, h5, h6⟩ := ih h
      have hj : p.1 - j = (p.1 - (j + 1)) + 1 := by omega
      exact ⟨by omega, by rw [hj]; simpa using h2, h3, h4,
        by rw [hj, List.getD_cons_succ]; exact h5,
        by rw [hj, List.getD_cons_succ]; exact h6⟩
    · split at h
      · obtain ⟨h1, h2, h3, h4, h5, h6⟩ := ih h
        have hj : p.1 - j = (p.1 - (j + 1)) + 1 := by omega
        exact ⟨by omega, by rw [hj]; simpa using h2, h3, h4,
          by rw [hj, List.getD_cons_succ]; exact h5,
          by rw [hj, List.getD_cons_succ]; exact h6⟩
      · next hstrip halpha =>
        split at h
        · next found hfind =>
          rcases List.mem_cons.mp h with hhead | htail
          · obtain ⟨hf1, hf2, hf3⟩ := findFrom_spec hfind
            subst hhead
            refine ⟨Nat.le_refl _, by simp, hf1, hf2, ?_, ?_⟩
            · simpa using halpha
            · simpa using hf3
          · obtain ⟨h1, h2, h3, h4, h5, h6⟩ := ih htail
            obtain ⟨hf1, _, _⟩ := findFrom_spec hfind
            have hj : p.1 - j = (p.1 - (j + 1)) + 1 := by omega
            exact ⟨by omega, by rw [hj]; simpa using h2, by omega, h4,
              by rw [hj, List.getD_cons_succ]; exact h5,
              by rw [hj, List.getD_cons_succ]; exact h6⟩
        · obtain ⟨h1, h2, h3, h4, h5, h6⟩ := ih h
          have hj : p.1 - j = (p.1 - (j + 1)) + 1 := by omega
          exact ⟨by omega, by rw [hj]; simpa using h2, h3, h4,
            by rw [hj, List.getD_cons_succ]; exact h5,
            by rw [hj, List.getD_cons_succ]; exact h6⟩

theorem alignAux_pairwise (norm : List String) (toks : List Token) (j i : Nat) :
    (alignAux norm toks j i).Pairwise fun a b => a.1 < b.1 ∧ a.2 < b.2 := by
  induction toks generalizing j i with
  | nil => simp [alignAux]
  | cons tok rest ih =>
    rw [alignAux]
    split
    · exact ih (j + 1) i
    · split
      · exact ih (j + 1) i
      · split
        · next found hfind =>
          refine List.Pairwise.cons ?_ (ih (j + 1) (found + 1))
          intro q hq
          obtain ⟨h1, _, h3, _, _, _⟩ := alignAux_mem hq
          exact ⟨by omega, by omega⟩
        · exact ih (j + 1) i

theorem lookup_mem {l : List (Nat × Nat)} {k v : Nat} (h : l.lookup k = some v) :
    (k, v) ∈ l := by
  induction l with
  | nil => exact absurd h (by simp)
  | cons p rest ih =>
    rw [List.lookup] at h
    split at h
    · next heq =>
      cases h
      have : k = p.1 := by simpa using heq
      rw [this]
      exact List.mem_cons_self _ _
    · exact List.mem_cons_of_mem _ (ih h)

/-- The tokenised "go go now" of the C8 scenario. -/
def c8Doc1 : List Token :=
  [⟨"go", "go", "X", true, false, "O"⟩, ⟨"go", "go", "X", true, false, "O"⟩,
   ⟨"now", "now", "X", true, false, "O"⟩]

/-- A variant document with a non-alphabetic token and an unmatched
alphabetic token interleaved. -/
def c8Doc2 : List Token :=
  [⟨"go", "go", "X", true, false, "O"⟩, ⟨",", ",", "X", false, false, "O"⟩,
   ⟨"zz", "zz", "X", true, false, "O"⟩, ⟨"go", "go", "X", true, false, "O"⟩,
   ⟨"now", "now", "X", true, false, "O"⟩]

/-- C8: the greedy left-to-right alignment.  Every mapped pair joins an
alphabetic token to a word index whose lower-cased punctuation-stripped
word equals the token's lower-cased text; both token and word indices are
strictly increasing along the mapping (the cursor advances past each
matched word, so duplicate words map to successive indices); on
"go go now" the two go tokens map to word indices 0 and 1 (never both 0),
and non-alphabetic or unmatched tokens are absent from the mapping. -/
theorem c8_greedy_alignment :
    (∀ (text : String) (doc : List Token) (p : Nat × Nat),
        p ∈ align_spacy_tokens_to_split_words text doc →
        p.1 < doc.length ∧ (doc.getD p.1 emptyTok).is_alpha = true ∧
        p.2 < (splitWs text).length ∧
        ((splitWs text).map fun w => pyLower (strip_punct w)).getD p.2 "" =
          pyLower ((doc.getD p.1 emptyTok).text)) ∧
    (∀ (text : String) (doc : List Token),
        (align_spacy_tokens_to_split_words text doc).Pairwise
          fun a b => a.1 < b.1 ∧ a.2 < b.2) ∧
    align_spacy_tokens_to_split_words "go go now" c8Doc1 = [(0, 0), (1, 1), (2, 2)] ∧
    align_spacy_tokens_to_split_words "go go now" c8Doc2 = [(0, 0), (3, 1), (4, 2)] := by
  refine ⟨?_, ?_, by decide, by decide⟩
  · intro text doc p hp
    unfold align_spacy_tokens_to_split_words at hp
    obtain ⟨h1, h2, h3, h4, h5, h6⟩ := alignAux_mem hp
    rw [Nat.sub_zero] at h2 h5 h6
    rw [List.length_map] at h4
    exact ⟨h2, h5, h4, h6⟩
  · intro text doc
    exact alignAux_pairwise _ doc 0 0

/-- C8 witness: the head pair of the "go go now" alignment satisfies the
general matching property. -/
theorem c8_witness :
    (0 < c8Doc1.length ∧ (c8Doc1.getD 0 emptyTok).is_alpha = true ∧
     0 < (splitWs "go go now").length ∧
     ((splitWs "go go now").map fun w => pyLower (strip_punct w)).getD 0 "" =
       pyLower ((c8Doc1.getD 0 emptyTok).text)) :=
  c8_greedy_alignment.1 "go go now" c8Doc1 (0, 0) (by decide)

theorem mem_setdefaultKV {m : List (Nat × Token)} {wt x : Nat × Token}
    (h : x ∈ setdefaultKV m wt) : x ∈ m ∨ x = wt := by
  unfold setdefaultKV at h
  split at h
  · exact Or.inl h
  · rcases List.mem_append.mp h with hm | hw
    · exact Or.inl hm
    · exact Or.inr (by simpa using hw)

theorem mem_foldl_setdefault {l : List (Nat × Token)} {acc : List (Nat × Token)}
    {x : Nat × Token} (h : x ∈ l.foldl setdefaultKV acc) : x ∈ acc ∨ x ∈ l := by
  induction l generalizing acc with
  | nil => exact Or.inl h
  | cons wt rest ih =>
    rw [List.foldl_cons] at h
    rcases ih h with hacc | hrest
    · rcases mem_setdefaultKV hacc with hm | hw
      · exact Or.inl hm
      · exact Or.inr (by rw [hw]; exact List.mem_cons_self _ _)
    · exact Or.inr (List.mem_cons_of_mem _ hrest)

theorem spacy_collect_mem {useMask : Bool} {text : String} {doc : List Token}
    {es : Bool} {ap : Option (List String)} {fa : List String} {wt : Nat × Token}
    (h : wt ∈ spacy_collect useMask text doc es ap fa) :
    wt.1 < (splitWs text).length ∧ strip_punct ((splitWs text).getD wt.1 "") ≠ "" := by
  unfold spacy_collect at h
  obtain ⟨tt, htt, heq⟩ := List.mem_filterMap.mp h
  split at heq
  · exact absurd heq (by simp)
  · next widx hlk =>
    split at heq
    · exact absurd heq (by simp)
    · split at heq
      · exact absurd heq (by simp)
      · split at heq
        · exact absurd heq (by simp)
        · split at heq
          · exact absurd heq (by simp)
          · next hbase =>
            cases heq
            have hpair := lookup_mem hlk
            obtain ⟨_, _, _, h4, _, _⟩ := alignAux_mem hpair
            rw [List.length_map] at h4
            exact ⟨h4, hbase⟩

theorem spacy_candidates_mem {text : String} {doc : List Token} {es : Bool}
    {ap : Option (List String)} {fa : List String} {wt : Nat × Token}
    (h : wt ∈ spacy_candidates text doc es ap fa) :
    wt.1 < (splitWs text).length ∧ strip_punct ((splitWs text).getD wt.1 "") ≠ "" := by
  unfold spacy_candidates at h
  split at h
  · exact spacy_collect_mem h
  · exact spacy_collect_mem h

theorem spacy_selection_mem {prefer : Bool} {target : Int}
    {by_index : List (Nat × Token)} {wt : Nat × Token}
    (h : wt ∈ spacy_selection prefer target by_index) : wt ∈ by_index := by
  unfold spacy_selection at h
  exact mem_pySortBy.mp (List.take_subset _ _ h)

theorem spacy_by_index_mem {prefer : Bool} {candidates : List (Nat × Token)}
    {wt : Nat × Token} (h : wt ∈ spacy_by_index prefer candidates) :
    wt ∈ candidates := by
  unfold spacy_by_index at h
  rcases mem_foldl_setdefault h with hacc | hmem
  · exact absurd hacc (by simp)
  · exact mem_pySortBy.mp hmem

theorem spacy_blank_of_spec {hl : Bool} {words : List String} {wt : Nat × Token}
    {b : Blank} (h : spacy_blank_of hl words wt = some b) :
    b.position = wt.1 ∧ b.answer = strip_punct (words.getD wt.1 "") := by
  unfold spacy_blank_of at h
  split at h
  · exact absurd h (by simp)
  · cases h
    exact ⟨rfl, rfl⟩

theorem select_blanks_spacy_sound (load : Option Nlp) (text : String)
    (cfg : ExerciseConfig) :
    ∀ b ∈ select_blanks_spacy load text cfg,
      b.position < (splitWs text).length ∧
      b.answer = strip_punct ((splitWs text).getD b.position "") := by
  intro b hb
  unfold select_blanks_spacy at hb
  split at hb
  · exact absurd hb (by simp)
  · split at hb
    · exact absurd hb (by simp)
    · obtain ⟨wt, hwt, heq⟩ := List.mem_filterMap.mp hb
      have hcand := spacy_candidates_mem (spacy_by_index_mem (spacy_selection_mem hwt))
      obtain ⟨hpos, hans⟩ := spacy_blank_of_spec heq
      rw [hpos, hans]
      exact ⟨hcand.1, rfl⟩

/-- C1: validation gate soundness.  In every generator path the emitted
answer, lower-cased, equals the lower-cased punctuation-stripped word at
the record's position of `original_text.split()`, where the stripping is
the path's own: the set `.,!?;:"()[]` with braces for the two remote
parsing paths and the random fallback of `ai_exercise_generator.py`, and
the extended `_strip_punct` set for the local spaCy path; every position
indexes a real word.  `random.sample` of the fallback path is abstracted
as a function returning indices below its population size. -/
theorem c1_validation_gate_soundness :
    (∀ (bs : List RawBlank) (text : String), ∀ b ∈ validate_blanks bs text,
        b.position < (splitWs text).length ∧
        pyLower b.answer = pyLower (strip_punct_ai ((splitWs text).getD b.position ""))) ∧
    (∀ (bs : List RawBlank) (text : String), ∀ b ∈ parse_ai_response_blanks bs text,
        b.position < (splitWs text).length ∧
        pyLower b.answer = pyLower (strip_punct_ai ((splitWs text).getD b.position ""))) ∧
    (∀ (load : Option Nlp) (text : String) (cfg : ExerciseConfig),
        ∀ b ∈ select_blanks_spacy load text cfg,
        b.position < (splitWs text).length ∧
        pyLower b.answer = pyLower (strip_punct ((splitWs text).getD b.position ""))) ∧
    (∀ (sample : Nat → Nat → List Nat) (text : String),
        (∀ n k x, x ∈ sample n k → x < n) →
        ∀ b ∈ fallback_parsing sample text,
        b.position < (splitWs text).length ∧
        pyLower b.answer = pyLower (strip_punct_ai ((splitWs text).getD b.position ""))) := by
  refine ⟨?_, ?_, ?_, ?_⟩
  · intro bs text b hb
    obtain ⟨rb, _, heq⟩ := List.mem_filterMap.mp hb
    obtain ⟨_, _, hlt, hans⟩ := validate_blank_one_spec heq
    exact ⟨hlt, by rw [hans]⟩
  · intro bs text b hb
    obtain ⟨rb, _, heq⟩ := List.mem_filterMap.mp hb
    obtain ⟨_, _, hlt, hans⟩ := validate_blank_one_spec heq
    exact ⟨hlt, by rw [hans]⟩
  · intro load text cfg b hb
    obtain ⟨hlt, hans⟩ := select_blanks_spacy_sound load text cfg b hb
    exact ⟨hlt, by rw [hans]⟩
  · intro sample text hsample b hb
    unfold fallback_parsing at hb
    obtain ⟨pos, hpos, heq⟩ := List.mem_map.mp hb
    have hmem := mem_pySortBy.mp hpos
    have hlt := hsample _ _ _ hmem
    cases heq
    exact ⟨hlt, rfl⟩

/-- C1 witness: the fallback path at a concrete sampler, text and blank. -/
theorem c1_witness :
    (⟨0, "hola", "4 letters", "medium"⟩ : Blank).position < (splitWs "hola mundo").length ∧
    pyLower (⟨0, "hola", "4 letters", "medium"⟩ : Blank).answer =
      pyLower (strip_punct_ai ((splitWs "hola mundo").getD
        (⟨0, "hola", "4 letters", "medium"⟩ : Blank).position "")) :=
  c1_validation_gate_soundness.2.2.2 (fun n k => List.range (min k n)) "hola mundo"
    (fun n k x hx => Nat.lt_of_lt_of_le (List.mem_range.mp hx) (Nat.min_le_right k n))
    ⟨0, "hola", "4 letters", "medium"⟩ (by decide)

/-- C5 counterexample: `validate_blanks` keeps every AI blank that passes
the gate in the order supplied, so an AI response repeating a position
yields an ExerciseRecord whose blanks carry positions 1, 0, 1 — neither
unique nor ascending. -/
theorem c5_counterexample :
    ((parse_batch_exercises_data
        [⟨some 1, [⟨some 1, some "b", none, none⟩, ⟨some 0, some "a", none, none⟩,
                   ⟨some 1, some "b", none, none⟩]⟩]
        [⟨1, 0, 1, "a b"⟩] 0 1).getD []).map
      (fun e => e.blanks.map fun b => b.position) = [[1, 0, 1]] := by
  decide

theorem setdefaultKV_keys_nodup {m : List (Nat × Token)} {wt : Nat × Token}
    (h : (m.map Prod.fst).Nodup) : ((setdefaultKV m wt).map Prod.fst).Nodup := by
  unfold setdefaultKV
  split
  · exact h
  · next hany =>
    have hnotin : wt.1 ∉ m.map Prod.fst := by
      intro hmem
      obtain ⟨p, hp, hfst⟩ := List.mem_map.mp hmem
      exact hany (List.any_eq_true.mpr ⟨p, hp, by simp [hfst]⟩)
    rw [List.map_append]
    rw [List.nodup_append]
    refine ⟨h, by simp, ?_⟩
    intro a ha
    simp only [List.map_cons, List.map_nil, List.mem_singleton]
    intro heq
    rw [heq] at ha
    exact hnotin ha

theorem foldl_setdefault_keys_nodup (l : List (Nat × Token)) :
    ∀ acc : List (Nat × Token), (acc.map Prod.fst).Nodup →
      ((l.foldl setdefaultKV acc).map Prod.fst).Nodup := by
  induction l with
  | nil => exact fun acc h => h
  | cons wt rest ih =>
    intro acc h
    rw [List.foldl_cons]
    exact ih _ (setdefaultKV_keys_nodup h)

theorem spacy_by_index_keys_nodup (prefer : Bool) (cands : List (Nat × Token)) :
    ((spacy_by_index prefer cands).map Prod.fst).Nodup := by
  unfold spacy_by_index
  exact foldl_setdefault_keys_nodup _ [] (by simp)

theorem spacy_selection_keys_nodup (prefer : Bool) (target : Int)
    (by_index : List (Nat × Token)) (h : (by_index.map Prod.fst).Nodup) :
    ((spacy_selection prefer target by_index).map Prod.fst).Nodup := by
  unfold spacy_selection
  apply List.Nodup.sublist (List.Sublist.map Prod.fst (List.take_sublist _ _))
  exact ((pySortBy_perm _ by_index).map Prod.fst).nodup_iff.mpr h

theorem nodup_positions_filterMap {hl : Bool} {words : List String}
    (l : List (Nat × Token)) (hn : (l.map Prod.fst).Nodup) :
    ((l.filterMap (spacy_blank_of hl words)).map fun b => b.position).Nodup := by
  induction l with
  | nil => simp
  | cons wt rest ih =>
    rw [List.map_cons, List.nodup_cons] at hn
    rw [List.filterMap_cons]
    cases hfw : spacy_blank_of hl words wt with
    | none => exact ih hn.2
    | some b =>
      rw [List.map_cons, List.nodup_cons]
      refine ⟨?_, ih hn.2⟩
      intro hmem
      obtain ⟨b', hb', heqp⟩ := List.mem_map.mp hmem
      obtain ⟨wt', hwt', heq'⟩ := List.mem_filterMap.mp hb'
      have h1 := (spacy_blank_of_spec hfw).1
      have h2 := (spacy_blank_of_spec heq').1
      apply hn.1
      rw [List.mem_map]
      exact ⟨wt', hwt', by rw [← h2, heqp, h1]⟩

/-- C5 (amended): in the local spaCy path the emitted positions are
pairwise distinct (the per-word-index dedup guarantees it) though ordered
by ranking rather than ascending; in the remote parsing paths the output
preserves the order of the AI-supplied blanks, so positions are strictly
ascending (hence unique) exactly when the accepted raw positions are —
duplicates or disorder in the AI response propagate to the record. -/
theorem c5_positions_amended :
    (∀ (load : Option Nlp) (text : String) (cfg : ExerciseConfig),
        ((select_blanks_spacy load text cfg).map fun b => b.position).Nodup) ∧
    (∀ (bs : List RawBlank) (text : String),
        bs.Pairwise (fun a b => a.position.getD (-1) < b.position.getD (-1)) →
        ((validate_blanks bs text).map fun b => b.position).Pairwise (· < ·)) := by
  constructor
  · intro load text cfg
    unfold select_blanks_spacy
    split
    · simp
    · split
      · simp
      · exact nodup_positions_filterMap _
          (spacy_selection_keys_nodup _ _ _ (spacy_by_index_keys_nodup _ _))
  · intro bs text hpair
    unfold validate_blanks
    rw [List.pairwise_map, List.pairwise_filterMap]
    apply hpair.imp
    intro a a' hlt b hb b' hb'
    obtain ⟨hge, hpos, _, _⟩ := validate_blank_one_spec hb
    obtain ⟨hge', hpos', _, _⟩ := validate_blank_one_spec hb'
    rw [hpos, hpos']
    omega

/-- C5 witness: strictly ascending accepted AI positions yield strictly
ascending record positions. -/
theorem c5_witness :
    ((validate_blanks [⟨some 0, some "a", none, none⟩, ⟨some 1, some "b", none, none⟩]
        "a b").map fun b => b.position).Pairwise (· < ·) :=
  c5_positions_amended.2
    [⟨some 0, some "a", none, none⟩, ⟨some 1, some "b", none, none⟩] "a b" (by decide)

/-- A loaded Spanish model of the C10 scenario: every text tokenises to
two alphabetic NOUN tokens. -/
def c10Nlp : Nlp := fun _ =>
  [⟨"Hola", "hola", "NOUN", true, false, "O"⟩,
   ⟨"mundo", "mundo", "NOUN", true, false, "O"⟩]

/-- C10 counterexample: a config whose language is " es " — whose
lower-cased form is NOT one of spanish, es, español — still selects
blanks: the selectors strip the language before the check, and with the
Spanish model loaded the local path returns two blanks, contradicting the
claim's universal quantification over configs with unlisted lowercased
languages. -/
theorem c10_counterexample :
    pyLower " es " ∉ (["spanish", "es", "español"] : List String) ∧
    (select_blanks_spacy (some c10Nlp) "Hola mundo"
      ⟨some " es ", none, none, none⟩).length = 2 := by
  refine ⟨by decide, by decide⟩

/-- C10 (amended): the local spaCy path is Spanish-only up to language
normalisation — `ensure_nlp` returns none whenever the lower-cased
language is not one of spanish, es, español, and both selectors return
the empty list whenever the stripped language is non-empty and its
lower-cased form is not in that set (a missing, empty or whitespace
language is treated as Spanish by the selectors), and likewise whenever
the model fails to load. -/
theorem c10_spanish_only_amended :
    (∀ (load : Option Nlp) (lang : String),
        pyLower lang ∉ (["spanish", "es", "español"] : List String) →
        ensure_nlp load lang = none) ∧
    (∀ (load : Option Nlp) (text : String) (cfg : ExerciseConfig),
        pyStrip (cfg.language.getD "") ≠ "" →
        pyLower (pyStrip (cfg.language.getD "")) ∉
          (["spanish", "es", "español"] : List String) →
        select_blanks_spacy load text cfg = [] ∧
        suggest_candidates_for_ai load text cfg = []) ∧
    (∀ (text : String) (cfg : ExerciseConfig),
        select_blanks_spacy none text cfg = [] ∧
        suggest_candidates_for_ai none text cfg = []) := by
  have hnone : ∀ (load : Option Nlp) (lang : String),
      pyLower lang ∉ (["spanish", "es", "español"] : List String) →
      ensure_nlp load lang = none := by
    intro load lang h
    unfold ensure_nlp
    rw [if_neg h]
  refine ⟨hnone, ?_, ?_⟩
  · intro load text cfg hne hnot
    have hmatch : ensure_nlp load
        (if pyStrip (cfg.language.getD "") = "" then "Spanish"
         else pyStrip (cfg.language.getD "")) = none := by
      rw [if_neg hne]
      exact hnone load _ hnot
    constructor
    · unfold select_blanks_spacy
      rw [hmatch]
    · unfold suggest_candidates_for_ai
      rw [hmatch]
  · intro text cfg
    have hmatch : ensure_nlp none
        (if pyStrip (cfg.language.getD "") = "" then "Spanish"
         else pyStrip (cfg.language.getD "")) = none := by
      unfold ensure_nlp
      rw [ite_self]
    constructor
    · unfold select_blanks_spacy
      rw [hmatch]
    · unfold suggest_candidates_for_ai
      rw [hmatch]

/-- C10 witness: with the model loaded, a French config selects nothing. -/
theorem c10_witness :
    select_blanks_spacy (some c10Nlp) "Hola mundo" ⟨some "French", none, none, none⟩ = [] ∧
    suggest_candidates_for_ai (some c10Nlp) "Hola mundo" ⟨some "French", none, none, none⟩ = [] :=
  c10_spanish_only_amended.2.1 (some c10Nlp) "Hola mundo" ⟨some "French", none, none, none⟩
    (by decide) (by decide)
